import Mathlib

/-!
Verification of the WSE (water surface elevation) processing pipeline.

The development shallowly embeds the numeric core of the repository:
unit conversion, time alignment with tolerance-bound nearest matching,
gauge-pressure-to-depth physics, QA/QC flagging, and resampled summaries.

Modelling conventions:
* pandas numeric cells are rationals; a missing value (NaN) is `none` in
  an `Option ℚ` cell, and missing-value propagation of arithmetic is the
  usual `Option` propagation;
* timestamps are integers (seconds); an unparseable timestamp (NaT) is
  `none`;
* a pandas exception is the `error` branch of an `Except`; the spec-level
  error taxonomy (UnsupportedUnitError, InvalidConfigError,
  MissingColumnError) is the inductive type `WseError`, with the source's
  ValueError on an unknown pressure unit mapped to `unsupportedUnit` and
  its KeyError on a missing column mapped to `missingColumn`;
* a DataFrame is a list of rows together with booleans recording which
  optional columns are present.
-/

namespace WSE

/-- Spec-level error taxonomy (section 7 of the design document). -/
inductive WseError where
  | unsupportedUnit (units : String) : WseError
  | invalidConfig (msg : String) : WseError
  | missingColumn (msg : String) : WseError
  deriving DecidableEq, Repr

instance {ε α : Type} [DecidableEq ε] [DecidableEq α] :
    DecidableEq (Except ε α) := fun a b =>
  match a, b with
  | .ok x, .ok y => decidable_of_iff (x = y) (by simp)
  | .error x, .error y => decidable_of_iff (x = y) (by simp)
  | .ok _, .error _ => isFalse (by simp)
  | .error _, .ok _ => isFalse (by simp)

/-- Python str.lower on the ASCII unit strings of this code base. -/
def strLower (s : String) : String := String.mk (s.data.map Char.toLower)

/-- GRAVITY = 9.80665 m/s^2, from calculations.py. -/
def GRAVITY : ℚ := 980665 / 100000

/-- PSI_TO_PASCAL = 6894.757293168, from calculations.py. -/
def PSI_TO_PASCAL : ℚ := 6894757293168 / 1000000000

/-- KPA_TO_PASCAL = 1000.0, from calculations.py. -/
def KPA_TO_PASCAL : ℚ := 1000

/-- The multiplicative factor `_to_pascal` applies for a given unit string:
the unit is lowercased, kPa scales by 1000, psi by 6894.757293168, and any
other unit raises (ValueError in the source, spec name UnsupportedUnitError). -/
def unitFactor (units : String) : Except WseError ℚ :=
  let u := strLower units
  if u = "kpa" then .ok KPA_TO_PASCAL
  else if u = "psi" then .ok PSI_TO_PASCAL
  else .error (.unsupportedUnit u)

/-- `_to_pascal(series, units)` from calculations.py, on one cell:
lowercase the unit, multiply by the matching constant, otherwise raise. -/
def toPascal (v : ℚ) (units : String) : Except WseError ℚ :=
  let u := strLower units
  if u = "kpa" then .ok (v * KPA_TO_PASCAL)
  else if u = "psi" then .ok (v * PSI_TO_PASCAL)
  else .error (.unsupportedUnit u)

/-- `gauge_to_depth(gauge_pressure, density, units)` from calculations.py:
convert to pascal, then divide by density times gravity. -/
def gaugeToDepth (gauge : ℚ) (density : ℚ) (units : String) : Except WseError ℚ :=
  (toPascal gauge units).map (fun pascal => pascal / (density * GRAVITY))

/-- `ProcessingConfig` from calculations.py: a plain dataclass.  Its
generated constructor performs no validation of any field; `merge_tolerance`
is modelled as a duration in seconds (the source default "15min" is 900 s). -/
structure ProcessingConfig where
  reference_datum : ℚ
  fluid_density : ℚ := 1000
  pressure_units : String := "kPa"
  timezone : Option String := none
  merge_tolerance : ℤ := 900
  deriving DecidableEq, Repr

/-- The dataclass-generated constructor of `ProcessingConfig`: it only
stores the fields, raising nothing, whatever the density. -/
def mkProcessingConfig (reference_datum fluid_density : ℚ)
    (pressure_units : String) (timezone : Option String)
    (merge_tolerance : ℤ) : ProcessingConfig :=
  { reference_datum := reference_datum, fluid_density := fluid_density,
    pressure_units := pressure_units, timezone := timezone,
    merge_tolerance := merge_tolerance }

/-- A row of the water logger table entering `compute_wse`, after pandas
timestamp parsing: `ts` is the parsed timestamp in seconds (`none` for NaT),
`wp` the water pressure cell, `wt` the water temperature cell (the model
fixes the case in which a water temperature column was selected; its cells
may still be missing). -/
structure WaterRow where
  ts : Option ℤ
  wp : Option ℚ
  wt : Option ℚ
  deriving DecidableEq, Repr

/-- A row of the barometric logger table entering `compute_wse`. -/
structure BaroRow where
  ts : Option ℤ
  bp : Option ℚ
  bt : Option ℚ
  deriving DecidableEq, Repr

/-- The merged table between pd.merge_asof and the dropna of line 97 of
calculations.py: water columns plus the matched barometric columns. -/
structure AlignedRow where
  ts : Option ℤ
  wp : Option ℚ
  bp : Option ℚ
  wt : Option ℚ
  bt : Option ℚ
  deriving DecidableEq, Repr

/-- A row of the final merged table of `compute_wse`, with the three
computed columns of lines 99-103 of calculations.py. -/
structure MergedRow where
  ts : Option ℤ
  wp : Option ℚ
  bp : Option ℚ
  wt : Option ℚ
  bt : Option ℚ
  gauge : Option ℚ
  depth : Option ℚ
  wse : Option ℚ
  deriving DecidableEq, Repr

/-- Insert one element into a list in front of the first element it is
le-below: one step of the sorting pass of df.sort_values. -/
def insertLe {α : Type} (le : α → α → Bool) (x : α) : List α → List α
  | [] => [x]
  | y :: ys => if le x y then x :: y :: ys else y :: insertLe le x ys

/-- Insertion sort, modelling df.sort_values on the timestamp column. -/
def sortByLe {α : Type} (le : α → α → Bool) : List α → List α
  | [] => []
  | x :: xs => insertLe le x (sortByLe le xs)

/-- Timestamp order used by sort_values: missing timestamps (NaT) are
placed last, as with the pandas default na_position. -/
def tsLe : Option ℤ → Option ℤ → Bool
  | some a, some b => a ≤ b
  | some _, none => true
  | none, some _ => false
  | none, none => true

/-- The barometric rows that carry a parseable timestamp, keyed by it:
the candidate pool of the pd.merge_asof nearest search. -/
def withKeys (rs : List BaroRow) : List (ℤ × BaroRow) :=
  rs.filterMap (fun r => r.ts.map (fun k => (k, r)))

/-- The nearest-match step of pd.merge_asof with direction nearest and a
tolerance, for one left key `t`, modelled after the pandas implementation:
a backward search (latest candidate with key at most `t`), a forward search
(earliest candidate with key at least `t`), each discarded when farther
than the tolerance, and when both remain the backward one wins whenever its
distance is at most the forward distance. -/
def asofPick (t tol : ℤ) (ks : List (ℤ × BaroRow)) : Option (ℤ × BaroRow) :=
  let bwd := match (ks.filter (fun p => p.1 ≤ t)).getLast? with
    | some p => if t - p.1 ≤ tol then some p else none
    | none => none
  let fwd := match (ks.filter (fun p => t ≤ p.1)).head? with
    | some p => if p.1 - t ≤ tol then some p else none
    | none => none
  match bwd, fwd with
  | none, none => none
  | some p, none => some p
  | none, some p => some p
  | some pb, some pf => if t - pb.1 ≤ pf.1 - t then some pb else some pf

/-- One output row of pd.merge_asof: the water columns kept as they are,
the barometric columns taken from the nearest match within tolerance and
left missing when there is none (a left row with an unparseable timestamp
matches nothing). -/
def alignRow (tol : ℤ) (ks : List (ℤ × BaroRow)) (w : WaterRow) : AlignedRow :=
  let m : Option BaroRow :=
    match w.ts with
    | none => none
    | some t => (asofPick t tol ks).map Prod.snd
  { ts := w.ts, wp := w.wp, wt := w.wt,
    bp := m.bind (fun r => r.bp), bt := m.bind (fun r => r.bt) }

/-- Missing-value propagation of a pandas binary column operation. -/
def omap2 (f : ℚ → ℚ → ℚ) : Option ℚ → Option ℚ → Option ℚ
  | some a, some b => some (f a b)
  | _, _ => none

/-- The timestamp sorting pass of compute_wse (line 75 of calculations.py)
applied to the water table. -/
def sortWater (water : List WaterRow) : List WaterRow :=
  sortByLe (fun a b => tsLe a.ts b.ts) water

/-- The timestamp sorting pass of compute_wse (line 75 of calculations.py)
applied to the barometric table. -/
def sortBaro (baro : List BaroRow) : List BaroRow :=
  sortByLe (fun a b => tsLe a.ts b.ts) baro

/-- The pd.merge_asof call of compute_wse (lines 77-84 of calculations.py):
one output row per water row, in water order, with the nearest barometric
row within tolerance attached. -/
def alignTables (tol : ℤ) (water : List WaterRow) (baro : List BaroRow) :
    List AlignedRow :=
  (sortWater water).map (alignRow tol (withKeys (sortBaro baro)))

/-- The dropna of compute_wse (line 97 of calculations.py): keep the rows
whose timestamp, water pressure and barometric pressure are all present. -/
def dropnaRows (l : List AlignedRow) : List AlignedRow :=
  l.filter (fun r => r.ts.isSome && r.wp.isSome && r.bp.isSome)

/-- The computed columns of compute_wse (lines 99-103 of calculations.py),
with `f` the pascal factor of the configured unit: gauge pressure is the
pressure difference in the input unit, depth divides the pascal value by
density times gravity, WSE adds the reference datum. -/
def addComputedColumns (config : ProcessingConfig) (f : ℚ)
    (r : AlignedRow) : MergedRow :=
  let gauge := omap2 (fun a b => a - b) r.wp r.bp
  let depth := gauge.map (fun g => g * f / (config.fluid_density * GRAVITY))
  { ts := r.ts, wp := r.wp, bp := r.bp, wt := r.wt, bt := r.bt,
    gauge := gauge, depth := depth,
    wse := depth.map (fun d => config.reference_datum + d) }

/-- `compute_wse(water, barometric, config, ...)` from calculations.py:
sort both tables by timestamp, align them with pd.merge_asof (direction
nearest, tolerance config.merge_tolerance), drop every row whose timestamp,
water pressure or barometric pressure is missing, then add the gauge
pressure, depth and WSE columns.  The unit check of `_to_pascal` happens
once per series call in the source, so its factor is resolved once here;
`toPascal_eq_factor` ties the per-cell function to this factor. -/
def compute_wse (water : List WaterRow) (baro : List BaroRow)
    (config : ProcessingConfig) : Except WseError (List MergedRow) :=
  (unitFactor config.pressure_units).map (fun f =>
    (dropnaRows (alignTables config.merge_tolerance water baro)).map
      (addComputedColumns config f))

/-- `QAQCConfig` from qaqc.py. -/
structure QAQCConfig where
  shift_threshold : ℚ := 3 / 20
  temperature_threshold : Option ℚ := none
  deriving DecidableEq, Repr

/-- A row of a table handed to the QA/QC helpers: the water depth cell,
the water temperature cell, and the values of all its other columns,
which the helpers copy through untouched. -/
structure QRow where
  depth : Option ℚ
  temp : Option ℚ
  other : List ℚ
  deriving DecidableEq, Repr

/-- A table handed to the QA/QC helpers: its rows plus which of the two
named columns exist in it. -/
structure QTable where
  hasDepth : Bool
  hasTemp : Bool
  rows : List QRow
  deriving DecidableEq, Repr

/-- A QA/QC output table: the flagged rows, each with the value of the
added evidence column, plus whether that extra column exists at all (the
disabled temperature check returns the input schema unchanged). -/
structure FlagResult where
  extraCol : Bool
  rows : List (QRow × ℚ)
  deriving DecidableEq, Repr

/-- The row scan of `flag_shifts`: `prev` is the predecessor's depth cell
(`none` before the first row, matching the NaN that series.diff leaves
there); a row is kept when the absolute difference of its depth from the
predecessor's is defined and strictly above the threshold, and it is
annotated with that difference. -/
def shiftFlagsAux (thr : ℚ) (prev : Option ℚ) : List QRow → List (QRow × ℚ)
  | [] => []
  | r :: rs =>
    let rest := shiftFlagsAux thr r.depth rs
    match prev, r.depth with
    | some b, some a => if thr < |a - b| then (r, |a - b|) :: rest else rest
    | _, _ => rest

/-- `flag_shifts(df, config)` from qaqc.py: raise (KeyError in the source,
spec name MissingColumnError) when the water depth column is absent,
otherwise keep the rows whose absolute depth difference from the immediate
predecessor strictly exceeds config.shift_threshold, annotated with the
difference in a depth_change column. -/
def flag_shifts (df : QTable) (config : QAQCConfig) :
    Except WseError FlagResult :=
  if df.hasDepth = false then
    .error (.missingColumn "water depth column missing from dataframe")
  else
    .ok { extraCol := true,
          rows := shiftFlagsAux config.shift_threshold none df.rows }

/-- `flag_temperature_outliers(df, config)` from qaqc.py: when the
threshold is Python-falsy (absent, or equal to zero) or the water
temperature column is absent, return an empty table with the input's
columns; otherwise keep the rows whose temperature strictly exceeds the
threshold, annotated with the excess in a temperature_excess column. -/
def flag_temperature_outliers (df : QTable) (config : QAQCConfig) :
    FlagResult :=
  match config.temperature_threshold with
  | none => { extraCol := false, rows := [] }
  | some thr =>
    if thr == 0 || df.hasTemp = false then { extraCol := false, rows := [] }
    else
      { extraCol := true,
        rows := df.rows.filterMap (fun r =>
          match r.temp with
          | some v => if thr < v then some (r, v - thr) else none
          | none => none) }

/-- Day bin of pandas resample with rule 1D: the calendar day holding the
timestamp. -/
def dayKey (t : ℤ) : ℤ := Int.fdiv t 86400

/-- Week bin of pandas resample with rule 1W (weeks ending Sunday): the
epoch, 1970-01-01, was a Thursday, so weeks close 3 days after each
multiple of 604800 seconds. -/
def weekKey (t : ℤ) : ℤ := Int.fdiv (t + 259200) 604800

/-- resample(rule).mean(numeric_only=True) on one numeric column: one bin
per key value between the least and greatest key of the data, carrying the
arithmetic mean of the column over the rows in that bin (missing when the
bin is empty).  No data yields no bins. -/
def resampleMean (key : ℤ → ℤ) (rows : List (ℤ × ℚ)) :
    List (ℤ × Option ℚ) :=
  match rows.map (fun r => key r.1) with
  | [] => []
  | k :: ks =>
    let lo := ks.foldl min k
    let hi := ks.foldl max k
    (List.range (hi - lo + 1).toNat).map (fun i =>
      let g := lo + (i : ℤ)
      let vals := (rows.filter (fun r => key r.1 == g)).map Prod.snd
      (g, if vals.length = 0 then none
          else some (vals.sum / (vals.length : ℚ))))

/-- `summarise_timeseries(df)` from calculations.py, on one numeric column
of the merged table (each numeric column is resampled independently by
mean, so one column stands for all): the daily and the weekly aggregate. -/
def summarise_timeseries (rows : List (ℤ × ℚ)) :
    List (ℤ × Option ℚ) × List (ℤ × Option ℚ) :=
  (resampleMean dayKey rows, resampleMean weekKey rows)

theorem toPascal_eq_factor (v : ℚ) (units : String) :
    toPascal v units = (unitFactor units).map (fun f => v * f) := by
  unfold toPascal unitFactor
  by_cases h1 : strLower units = "kpa" <;> by_cases h2 : strLower units = "psi" <;>
    simp [h1, h2, Except.map]

example : toPascal 3 "kPa" = .ok 3000 := by norm_num +decide [toPascal, KPA_TO_PASCAL]
example : toPascal 1 "PSI" = .ok PSI_TO_PASCAL := by norm_num +decide [toPascal]
example : (toPascal 1 "bar").isOk = false := by norm_num +decide [toPascal, Except.isOk]

/-! Helper lemmas about the nearest-match search. -/

theorem mem_of_getLast?_eq {α : Type} {l : List α} {a : α}
    (h : l.getLast? = some a) : a ∈ l := by
  have ha : a ∈ l.getLast? := by simp [h]
  rcases List.mem_getLast?_eq_getLast ha with ⟨hne, rfl⟩
  exact List.getLast_mem hne

theorem mem_of_head?_eq {α : Type} {l : List α} {a : α}
    (h : l.head? = some a) : a ∈ l := by
  cases l with
  | nil => simp at h
  | cons b bs =>
    simp only [List.head?_cons, Option.some.injEq] at h
    simp [h]

/-- In a list whose keys are pairwise nondecreasing, the last element has
the greatest key. -/
theorem key_le_getLast : ∀ {l : List (ℤ × BaroRow)},
    List.Pairwise (fun p q => p.1 ≤ q.1) l →
    ∀ {x p : ℤ × BaroRow}, x ∈ l → l.getLast? = some p → x.1 ≤ p.1
  | [], _, x, _, hx, _ => absurd hx (List.not_mem_nil x)
  | [a], _, x, p, hx, hp => by
    simp only [List.getLast?_singleton, Option.some.injEq] at hp
    simp only [List.mem_singleton] at hx
    subst hp; subst hx; exact le_refl _
  | a :: b :: l, hs, x, p, hx, hp => by
    rw [List.getLast?_cons_cons] at hp
    rcases List.pairwise_cons.mp hs with ⟨ha, hl⟩
    rcases List.mem_cons.mp hx with rfl | hx'
    · exact ha p (mem_of_getLast?_eq hp)
    · exact key_le_getLast hl hx' hp

/-- In a list whose keys are pairwise nondecreasing, the head has the
least key. -/
theorem head_key_le {l : List (ℤ × BaroRow)}
    (hs : List.Pairwise (fun p q => p.1 ≤ q.1) l)
    {x p : ℤ × BaroRow} (hx : x ∈ l) (hp : l.head? = some p) : p.1 ≤ x.1 := by
  cases l with
  | nil => cases hx
  | cons a as =>
    simp only [List.head?_cons, Option.some.injEq] at hp
    subst hp
    rcases List.mem_cons.mp hx with rfl | hx'
    · exact le_refl _
    · exact (List.pairwise_cons.mp hs).1 x hx'

/-- The backward candidate of the nearest search: the latest row keyed at
most `t`, and an upper bound for every such row. -/
theorem bwd_some_spec {t : ℤ} {ks : List (ℤ × BaroRow)} {pb : ℤ × BaroRow}
    (hs : List.Pairwise (fun p q => p.1 ≤ q.1) ks)
    (h : (ks.filter (fun p => p.1 ≤ t)).getLast? = some pb) :
    pb ∈ ks ∧ pb.1 ≤ t ∧ ∀ q ∈ ks, q.1 ≤ t → q.1 ≤ pb.1 := by
  have hmem := mem_of_getLast?_eq h
  have h1 := List.mem_filter.mp hmem
  refine ⟨h1.1, by simpa using h1.2, ?_⟩
  intro q hq hqt
  have hqf : q ∈ ks.filter (fun p => p.1 ≤ t) :=
    List.mem_filter.mpr ⟨hq, by simpa using hqt⟩
  exact key_le_getLast (hs.filter _) hqf h

theorem bwd_none_spec {t : ℤ} {ks : List (ℤ × BaroRow)}
    (h : (ks.filter (fun p => p.1 ≤ t)).getLast? = none) :
    ∀ q ∈ ks, t < q.1 := by
  rw [List.getLast?_eq_none_iff] at h
  intro q hq
  by_contra hc
  push_neg at hc
  have hqf : q ∈ ks.filter (fun p => p.1 ≤ t) :=
    List.mem_filter.mpr ⟨hq, by simpa using hc⟩
  rw [h] at hqf
  cases hqf

/-- The forward candidate of the nearest search: the earliest row keyed at
least `t`, and a lower bound for every such row. -/
theorem fwd_some_spec {t : ℤ} {ks : List (ℤ × BaroRow)} {pf : ℤ × BaroRow}
    (hs : List.Pairwise (fun p q => p.1 ≤ q.1) ks)
    (h : (ks.filter (fun p => t ≤ p.1)).head? = some pf) :
    pf ∈ ks ∧ t ≤ pf.1 ∧ ∀ q ∈ ks, t ≤ q.1 → pf.1 ≤ q.1 := by
  have hmem := mem_of_head?_eq h
  have h1 := List.mem_filter.mp hmem
  refine ⟨h1.1, by simpa using h1.2, ?_⟩
  intro q hq hqt
  have hqf : q ∈ ks.filter (fun p => t ≤ p.1) :=
    List.mem_filter.mpr ⟨hq, by simpa using hqt⟩
  exact head_key_le (hs.filter _) hqf h

theorem fwd_none_spec {t : ℤ} {ks : List (ℤ × BaroRow)}
    (h : (ks.filter (fun p => t ≤ p.1)).head? = none) :
    ∀ q ∈ ks, q.1 < t := by
  rw [List.head?_eq_none_iff] at h
  intro q hq
  by_contra hc
  push_neg at hc
  have hqf : q ∈ ks.filter (fun p => t ≤ p.1) :=
    List.mem_filter.mpr ⟨hq, by simpa using hc⟩
  rw [h] at hqf
  cases hqf

theorem abs_sub_of_ge {a b : ℤ} (h : b ≤ a) : |a - b| = a - b :=
  abs_of_nonneg (by omega)

theorem abs_sub_of_le {a b : ℤ} (h : a ≤ b) : |a - b| = -(a - b) :=
  abs_of_nonpos (by omega)

/-- The nearest search of the aligner, declaratively: on a key-sorted
candidate list, a pick is a candidate within tolerance at minimal absolute
distance, with distance ties resolved to the earlier key; and the pick is
empty exactly when every candidate is farther than the tolerance. -/
theorem asofPick_spec (t tol : ℤ) (ks : List (ℤ × BaroRow))
    (hs : List.Pairwise (fun p q => p.1 ≤ q.1) ks) :
    (∀ p, asofPick t tol ks = some p →
        p ∈ ks ∧ |t - p.1| ≤ tol ∧
        (∀ q ∈ ks, |t - p.1| ≤ |t - q.1|) ∧
        (∀ q ∈ ks, |t - q.1| = |t - p.1| → p.1 ≤ q.1)) ∧
    (asofPick t tol ks = none → ∀ q ∈ ks, tol < |t - q.1|) := by
  rcases hB : (ks.filter (fun p => p.1 ≤ t)).getLast? with _ | pb <;>
    rcases hF : (ks.filter (fun p => t ≤ p.1)).head? with _ | pf
  · -- no candidate on either side: the list has no keyed row at all
    have hBe := bwd_none_spec hB
    have hFe := fwd_none_spec hF
    constructor
    · intro p hp
      exfalso
      simp only [asofPick, hB, hF] at hp
      exact Option.noConfusion hp
    · intro _ q hq
      exact absurd (hFe q hq) (by have := hBe q hq; omega)
  · -- only a forward candidate
    rcases fwd_some_spec hs hF with ⟨hfm, hft, hfmin⟩
    have hBe := bwd_none_spec hB
    by_cases htol : pf.1 - t ≤ tol
    · constructor
      · intro p hp
        simp only [asofPick, hB, hF, if_pos htol, Option.some.injEq] at hp
        subst hp
        refine ⟨hfm, ?_, ?_, ?_⟩
        · rw [abs_sub_of_le hft]; omega
        · intro q hq
          have h1 := hBe q hq
          have h2 := hfmin q hq (by omega)
          rw [abs_sub_of_le hft, abs_sub_of_le (by omega : t ≤ q.1)]
          omega
        · intro q hq hd
          have h1 := hBe q hq
          rw [abs_sub_of_le hft, abs_sub_of_le (by omega : t ≤ q.1)] at hd
          omega
      · intro hp
        exfalso
        simp only [asofPick, hB, hF, if_pos htol] at hp
        exact Option.noConfusion hp
    · constructor
      · intro p hp
        exfalso
        simp only [asofPick, hB, hF, if_neg htol] at hp
        exact Option.noConfusion hp
      · intro _ q hq
        have h1 := hBe q hq
        have h2 := hfmin q hq (by omega)
        rw [abs_sub_of_le (by omega : t ≤ q.1)]
        omega
  · -- only a backward candidate
    rcases bwd_some_spec hs hB with ⟨hbm, hbt, hbmax⟩
    have hFe := fwd_none_spec hF
    by_cases htol : t - pb.1 ≤ tol
    · constructor
      · intro p hp
        simp only [asofPick, hB, hF, if_pos htol, Option.some.injEq] at hp
        subst hp
        refine ⟨hbm, ?_, ?_, ?_⟩
        · rw [abs_sub_of_ge hbt]; omega
        · intro q hq
          have h1 := hFe q hq
          have h2 := hbmax q hq (by omega)
          rw [abs_sub_of_ge hbt, abs_sub_of_ge (by omega : q.1 ≤ t)]
          omega
        · intro q hq hd
          have h1 := hFe q hq
          rw [abs_sub_of_ge hbt, abs_sub_of_ge (by omega : q.1 ≤ t)] at hd
          omega
      · intro hp
        exfalso
        simp only [asofPick, hB, hF, if_pos htol] at hp
        exact Option.noConfusion hp
    · constructor
      · intro p hp
        exfalso
        simp only [asofPick, hB, hF, if_neg htol] at hp
        exact Option.noConfusion hp
      · intro _ q hq
        have h1 := hFe q hq
        have h2 := hbmax q hq (by omega)
        rw [abs_sub_of_ge (by omega : q.1 ≤ t)]
        omega
  · -- candidates on both sides
    rcases bwd_some_spec hs hB with ⟨hbm, hbt, hbmax⟩
    rcases fwd_some_spec hs hF with ⟨hfm, hft, hfmin⟩
    by_cases hbtol : t - pb.1 ≤ tol <;> by_cases hftol : pf.1 - t ≤ tol
    · -- both within tolerance: compare the two distances
      by_cases hcmp : t - pb.1 ≤ pf.1 - t
      · constructor
        · intro p hp
          simp only [asofPick, hB, hF, if_pos hbtol, if_pos hftol,
            if_pos hcmp, Option.some.injEq] at hp
          subst hp
          refine ⟨hbm, ?_, ?_, ?_⟩
          · rw [abs_sub_of_ge hbt]; omega
          · intro q hq
            rw [abs_sub_of_ge hbt]
            rcases le_total q.1 t with hq1 | hq1
            · have h2 := hbmax q hq hq1
              rw [abs_sub_of_ge hq1]; omega
            · have h2 := hfmin q hq hq1
              rw [abs_sub_of_le hq1]; omega
          · intro q hq hd
            rw [abs_sub_of_ge hbt] at hd
            rcases le_total q.1 t with hq1 | hq1
            · have h2 := hbmax q hq hq1
              rw [abs_sub_of_ge hq1] at hd; omega
            · have h2 := hfmin q hq hq1
              rw [abs_sub_of_le hq1] at hd; omega
        · intro hp
          exfalso
          simp only [asofPick, hB, hF, if_pos hbtol, if_pos hftol,
            if_pos hcmp] at hp
          exact Option.noConfusion hp
      · constructor
        · intro p hp
          simp only [asofPick, hB, hF, if_pos hbtol, if_pos hftol,
            if_neg hcmp, Option.some.injEq] at hp
          subst hp
          refine ⟨hfm, ?_, ?_, ?_⟩
          · rw [abs_sub_of_le hft]; omega
          · intro q hq
            rw [abs_sub_of_le hft]
            rcases le_total q.1 t with hq1 | hq1
            · have h2 := hbmax q hq hq1
              rw [abs_sub_of_ge hq1]; omega
            · have h2 := hfmin q hq hq1
              rw [abs_sub_of_le hq1]; omega
          · intro q hq hd
            rw [abs_sub_of_le hft] at hd
            rcases le_total q.1 t with hq1 | hq1
            · have h2 := hbmax q hq hq1
              rw [abs_sub_of_ge hq1] at hd; omega
            · have h2 := hfmin q hq hq1
              rw [abs_sub_of_le hq1] at hd; omega
        · intro hp
          exfalso
          simp only [asofPick, hB, hF, if_pos hbtol, if_pos hftol,
            if_neg hcmp] at hp
          exact Option.noConfusion hp
    · -- only the backward candidate is within tolerance
      constructor
      · intro p hp
        simp only [asofPick, hB, hF, if_pos hbtol, if_neg hftol,
          Option.some.injEq] at hp
        subst hp
        refine ⟨hbm, ?_, ?_, ?_⟩
        · rw [abs_sub_of_ge hbt]; omega
        · intro q hq
          rw [abs_sub_of_ge hbt]
          rcases le_total q.1 t with hq1 | hq1
          · have h2 := hbmax q hq hq1
            rw [abs_sub_of_ge hq1]; omega
          · have h2 := hfmin q hq hq1
            rw [abs_sub_of_le hq1]; omega
        · intro q hq hd
          rw [abs_sub_of_ge hbt] at hd
          rcases le_total q.1 t with hq1 | hq1
          · have h2 := hbmax q hq hq1
            rw [abs_sub_of_ge hq1] at hd; omega
          · have h2 := hfmin q hq hq1
            rw [abs_sub_of_le hq1] at hd; omega
      · intro hp
        exfalso
        simp only [asofPick, hB, hF, if_pos hbtol, if_neg hftol] at hp
        exact Option.noConfusion hp
    · -- only the forward candidate is within tolerance
      constructor
      · intro p hp
        simp only [asofPick, hB, hF, if_neg hbtol, if_pos hftol,
          Option.some.injEq] at hp
        subst hp
        refine ⟨hfm, ?_, ?_, ?_⟩
        · rw [abs_sub_of_le hft]; omega
        · intro q hq
          rw [abs_sub_of_le hft]
          rcases le_total q.1 t with hq1 | hq1
          · have h2 := hbmax q hq hq1
            rw [abs_sub_of_ge hq1]; omega
          · have h2 := hfmin q hq hq1
            rw [abs_sub_of_le hq1]; omega
        · intro q hq hd
          rw [abs_sub_of_le hft] at hd
          rcases le_total q.1 t with hq1 | hq1
          · have h2 := hbmax q hq hq1
            rw [abs_sub_of_ge hq1] at hd; omega
          · have h2 := hfmin q hq hq1
            rw [abs_sub_of_le hq1] at hd; omega
      · intro hp
        exfalso
        simp only [asofPick, hB, hF, if_neg hbtol, if_pos hftol] at hp
        exact Option.noConfusion hp
    · -- neither candidate is within tolerance
      constructor
      · intro p hp
        exfalso
        simp only [asofPick, hB, hF, if_neg hbtol, if_neg hftol] at hp
        exact Option.noConfusion hp
      · intro _ q hq
        rcases le_total q.1 t with hq1 | hq1
        · have h2 := hbmax q hq hq1
          rw [abs_sub_of_ge hq1]; omega
        · have h2 := hfmin q hq hq1
          rw [abs_sub_of_le hq1]; omega

/-- A pick of the nearest search is a candidate within tolerance, with no
sortedness assumption (membership and the tolerance bound come from the
searches themselves). -/
theorem asofPick_mem_tol {t tol : ℤ} {ks : List (ℤ × BaroRow)}
    {p : ℤ × BaroRow} (h : asofPick t tol ks = some p) :
    p ∈ ks ∧ |t - p.1| ≤ tol := by
  have hb : ∀ pb, (ks.filter (fun q => q.1 ≤ t)).getLast? = some pb →
      pb ∈ ks ∧ pb.1 ≤ t := by
    intro pb hpb
    have h1 := List.mem_filter.mp (mem_of_getLast?_eq hpb)
    exact ⟨h1.1, by simpa using h1.2⟩
  have hf : ∀ pf, (ks.filter (fun q => t ≤ q.1)).head? = some pf →
      pf ∈ ks ∧ t ≤ pf.1 := by
    intro pf hpf
    have h1 := List.mem_filter.mp (mem_of_head?_eq hpf)
    exact ⟨h1.1, by simpa using h1.2⟩
  rcases hB : (ks.filter (fun q => q.1 ≤ t)).getLast? with _ | pb <;>
    rcases hF : (ks.filter (fun q => t ≤ q.1)).head? with _ | pf
  · simp only [asofPick, hB, hF] at h
    exact Option.noConfusion h
  · rcases hf pf hF with ⟨hm, ht⟩
    by_cases htol : pf.1 - t ≤ tol
    · simp only [asofPick, hB, hF, if_pos htol, Option.some.injEq] at h
      subst h
      exact ⟨hm, by rw [abs_sub_of_le ht]; omega⟩
    · simp only [asofPick, hB, hF, if_neg htol] at h
      exact Option.noConfusion h
  · rcases hb pb hB with ⟨hm, ht⟩
    by_cases htol : t - pb.1 ≤ tol
    · simp only [asofPick, hB, hF, if_pos htol, Option.some.injEq] at h
      subst h
      exact ⟨hm, by rw [abs_sub_of_ge ht]; omega⟩
    · simp only [asofPick, hB, hF, if_neg htol] at h
      exact Option.noConfusion h
  · rcases hb pb hB with ⟨hbm, hbt⟩
    rcases hf pf hF with ⟨hfm, hft⟩
    by_cases hbtol : t - pb.1 ≤ tol <;> by_cases hftol : pf.1 - t ≤ tol
    · by_cases hcmp : t - pb.1 ≤ pf.1 - t
      · simp only [asofPick, hB, hF, if_pos hbtol, if_pos hftol,
          if_pos hcmp, Option.some.injEq] at h
        subst h
        exact ⟨hbm, by rw [abs_sub_of_ge hbt]; omega⟩
      · simp only [asofPick, hB, hF, if_pos hbtol, if_pos hftol,
          if_neg hcmp, Option.some.injEq] at h
        subst h
        exact ⟨hfm, by rw [abs_sub_of_le hft]; omega⟩
    · simp only [asofPick, hB, hF, if_pos hbtol, if_neg hftol,
        Option.some.injEq] at h
      subst h
      exact ⟨hbm, by rw [abs_sub_of_ge hbt]; omega⟩
    · simp only [asofPick, hB, hF, if_neg hbtol, if_pos hftol,
        Option.some.injEq] at h
      subst h
      exact ⟨hfm, by rw [abs_sub_of_le hft]; omega⟩
    · simp only [asofPick, hB, hF, if_neg hbtol, if_neg hftol] at h
      exact Option.noConfusion h

/-- When every candidate lies beyond the tolerance the nearest search
returns nothing. -/
theorem asofPick_none_of_far {t tol : ℤ} {ks : List (ℤ × BaroRow)}
    (h : ∀ q ∈ ks, tol < |t - q.1|) : asofPick t tol ks = none := by
  have hbwd : ∀ pb, (ks.filter (fun q => q.1 ≤ t)).getLast? = some pb →
      ¬ t - pb.1 ≤ tol := by
    intro pb hpb
    have h1 := List.mem_filter.mp (mem_of_getLast?_eq hpb)
    have h2 : pb.1 ≤ t := by simpa using h1.2
    have h3 := h pb h1.1
    rw [abs_sub_of_ge h2] at h3
    omega
  have hfwd : ∀ pf, (ks.filter (fun q => t ≤ q.1)).head? = some pf →
      ¬ pf.1 - t ≤ tol := by
    intro pf hpf
    have h1 := List.mem_filter.mp (mem_of_head?_eq hpf)
    have h2 : t ≤ pf.1 := by simpa using h1.2
    have h3 := h pf h1.1
    rw [abs_sub_of_le h2] at h3
    omega
  rcases hB : (ks.filter (fun q => q.1 ≤ t)).getLast? with _ | pb <;>
    rcases hF : (ks.filter (fun q => t ≤ q.1)).head? with _ | pf
  · simp only [asofPick, hB, hF]
  · simp only [asofPick, hB, hF, if_neg (hfwd pf hF)]
  · simp only [asofPick, hB, hF, if_neg (hbwd pb hB)]
  · simp only [asofPick, hB, hF, if_neg (hbwd pb hB), if_neg (hfwd pf hF)]

/-! Membership and order facts about the sorting pass. -/

theorem mem_insertLe {α : Type} (le : α → α → Bool) (x y : α) :
    ∀ (l : List α), y ∈ insertLe le x l ↔ y = x ∨ y ∈ l
  | [] => by simp [insertLe]
  | z :: zs => by
    by_cases h : le x z = true
    · simp [insertLe, h]
    · have := mem_insertLe le x y zs
      simp [insertLe, h, this]
      tauto

theorem mem_sortByLe {α : Type} (le : α → α → Bool) (y : α) :
    ∀ (l : List α), y ∈ sortByLe le l ↔ y ∈ l
  | [] => by simp [sortByLe]
  | x :: xs => by
    have := mem_sortByLe le y xs
    simp [sortByLe, mem_insertLe, this]

theorem pairwise_insertLe {α : Type} {le : α → α → Bool}
    (htrans : ∀ a b c, le a b = true → le b c = true → le a c = true)
    (htot : ∀ a b, le a b = true ∨ le b a = true) (x : α) :
    ∀ (l : List α), List.Pairwise (fun a b => le a b = true) l →
      List.Pairwise (fun a b => le a b = true) (insertLe le x l)
  | [], _ => by simp [insertLe]
  | y :: ys, hl => by
    rcases List.pairwise_cons.mp hl with ⟨hy, hys⟩
    by_cases h : le x y = true
    · rw [insertLe, if_pos h]
      refine List.pairwise_cons.mpr ⟨?_, hl⟩
      intro b hb
      rcases List.mem_cons.mp hb with rfl | hb'
      · exact h
      · exact htrans x y b h (hy b hb')
    · rw [insertLe, if_neg h]
      refine List.pairwise_cons.mpr ⟨?_, pairwise_insertLe htrans htot x ys hys⟩
      intro b hb
      rcases (mem_insertLe le x b ys).mp hb with hbx | hb'
      · rw [hbx]
        rcases htot x y with hxy | hyx
        · exact absurd hxy h
        · exact hyx
      · exact hy b hb'

theorem pairwise_sortByLe {α : Type} {le : α → α → Bool}
    (htrans : ∀ a b c, le a b = true → le b c = true → le a c = true)
    (htot : ∀ a b, le a b = true ∨ le b a = true) :
    ∀ (l : List α), List.Pairwise (fun a b => le a b = true) (sortByLe le l)
  | [] => by simp [sortByLe]
  | x :: xs =>
    pairwise_insertLe htrans htot x _ (pairwise_sortByLe htrans htot xs)

theorem tsLe_trans (a b c : Option ℤ) :
    tsLe a b = true → tsLe b c = true → tsLe a c = true := by
  cases a <;> cases b <;> cases c <;> simp [tsLe] <;> omega

theorem tsLe_total (a b : Option ℤ) : tsLe a b = true ∨ tsLe b a = true := by
  cases a <;> cases b <;> simp [tsLe] <;> omega

/-- The sorted barometric table yields a key-sorted candidate pool. -/
theorem withKeys_sorted (baro : List BaroRow) :
    List.Pairwise (fun p q => p.1 ≤ q.1) (withKeys (sortBaro baro)) := by
  have hsorted : List.Pairwise (fun a b => tsLe a.ts b.ts = true)
      (sortBaro baro) := by
    exact pairwise_sortByLe
      (fun a b c hab hbc => tsLe_trans a.ts b.ts c.ts hab hbc)
      (fun a b => tsLe_total a.ts b.ts) baro
  unfold withKeys
  rw [List.pairwise_filterMap]
  refine hsorted.imp_of_mem ?_
  intro a b ha hb hab
  intro p hp q hq
  rcases hta : a.ts with _ | ka
  · rw [hta] at hp; simp at hp
  · rcases htb : b.ts with _ | kb
    · rw [htb] at hq; simp at hq
    · rw [hta] at hp
      rw [htb] at hq
      simp only [Option.map_some', Option.mem_def, Option.some.injEq] at hp hq
      subst hp; subst hq
      rw [hta, htb] at hab
      simpa [tsLe] using hab

theorem mem_withKeys {p : ℤ × BaroRow} {rs : List BaroRow}
    (h : p ∈ withKeys rs) : p.2 ∈ rs ∧ p.2.ts = some p.1 := by
  unfold withKeys at h
  rcases List.mem_filterMap.mp h with ⟨r, hr, hmap⟩
  rcases hts : r.ts with _ | k
  · rw [hts] at hmap; simp at hmap
  · rw [hts] at hmap
    simp only [Option.map_some', Option.some.injEq] at hmap
    subst hmap
    exact ⟨hr, hts⟩

theorem withKeys_mem {r : BaroRow} {k : ℤ} {rs : List BaroRow}
    (hr : r ∈ rs) (hk : r.ts = some k) : (k, r) ∈ withKeys rs := by
  unfold withKeys
  exact List.mem_filterMap.mpr ⟨r, hr, by rw [hk]; rfl⟩

/-- Inversion of the Except.map at the head of compute_wse. -/
theorem except_map_eq_ok {ε α β : Type} {e : Except ε α} {g : α → β} {y : β}
    (h : e.map g = .ok y) : ∃ x, e = .ok x ∧ y = g x := by
  cases e with
  | error err => simp [Except.map] at h
  | ok x => exact ⟨x, rfl, by simpa [Except.map] using h.symm⟩

/-! Lemmas about the shift scan, then the QA/QC claims. -/

/-- The stateful scan of flag_shifts equals the predecessor-pairing view:
pair each row with the depth cell of its predecessor (the first row pairs
with the missing value that series.diff leaves) and keep the pairs whose
absolute difference is defined and above threshold. -/
theorem shiftFlagsAux_eq_zip (thr : ℚ) :
    ∀ (prev : Option ℚ) (rows : List QRow),
      shiftFlagsAux thr prev rows =
        (rows.zip (prev :: rows.map QRow.depth)).filterMap
          (fun p => match p.2, p.1.depth with
            | some b, some a =>
              if thr < |a - b| then some (p.1, |a - b|) else none
            | _, _ => none)
  | prev, [] => by simp [shiftFlagsAux]
  | prev, r :: rs => by
    obtain ⟨rd, rt, ro⟩ := r
    have ih := shiftFlagsAux_eq_zip thr rd rs
    rcases prev with _ | pb <;> rcases rd with _ | a <;>
        simp [shiftFlagsAux, List.filterMap_cons, ih] <;>
      split_ifs <;> simp

/-- Every row kept by the shift scan is an input row and its annotation
strictly exceeds the threshold. -/
theorem shiftFlagsAux_mem (thr : ℚ) :
    ∀ (prev : Option ℚ) (rows : List QRow) (r : QRow) (c : ℚ),
      (r, c) ∈ shiftFlagsAux thr prev rows → r ∈ rows ∧ thr < c
  | _, [], r, _ => by simp [shiftFlagsAux]
  | prev, x :: xs, r, c => by
    obtain ⟨xd, xt, xo⟩ := x
    intro h
    rcases prev with _ | pb <;> rcases xd with _ | a
    · simp only [shiftFlagsAux] at h
      have hrec := shiftFlagsAux_mem thr none xs r c h
      exact ⟨List.mem_cons_of_mem _ hrec.1, hrec.2⟩
    · simp only [shiftFlagsAux] at h
      have hrec := shiftFlagsAux_mem thr (some a) xs r c h
      exact ⟨List.mem_cons_of_mem _ hrec.1, hrec.2⟩
    · simp only [shiftFlagsAux] at h
      have hrec := shiftFlagsAux_mem thr none xs r c h
      exact ⟨List.mem_cons_of_mem _ hrec.1, hrec.2⟩
    · by_cases hcond : thr < |a - pb|
      · simp only [shiftFlagsAux, if_pos hcond, List.mem_cons] at h
        rcases h with h | h
        · rw [Prod.mk.injEq] at h
          rcases h with ⟨rfl, rfl⟩
          exact ⟨List.mem_cons_self _ _, hcond⟩
        · have hrec := shiftFlagsAux_mem thr (some a) xs r c h
          exact ⟨List.mem_cons_of_mem _ hrec.1, hrec.2⟩
      · simp only [shiftFlagsAux, if_neg hcond] at h
        have hrec := shiftFlagsAux_mem thr (some a) xs r c h
        exact ⟨List.mem_cons_of_mem _ hrec.1, hrec.2⟩

/-- C6: flag_shifts flags exactly those rows whose absolute water-depth
difference from the immediate predecessor is defined and strictly exceeds
shift_threshold, annotating each with depth_change equal to that
difference; the first row pairs with an undefined predecessor difference
and is never flagged; and on the depth sequence [1.00, 1.00, 1.20, 1.21]
with threshold 0.15 exactly the 1.20 row is flagged, with depth_change
0.20. -/
theorem flag_shifts_spec :
    (∀ (df : QTable) (config : QAQCConfig), df.hasDepth = true →
      flag_shifts df config = .ok
        { extraCol := true,
          rows := (df.rows.zip (none :: df.rows.map QRow.depth)).filterMap
            (fun p => match p.2, p.1.depth with
              | some b, some a =>
                if config.shift_threshold < |a - b| then some (p.1, |a - b|)
                else none
              | _, _ => none) }) ∧
    flag_shifts
        { hasDepth := true, hasTemp := false,
          rows := [⟨some 1, none, []⟩, ⟨some 1, none, []⟩,
                   ⟨some (6/5), none, []⟩, ⟨some (121/100), none, []⟩] }
        { shift_threshold := 3/20, temperature_threshold := none }
      = .ok { extraCol := true,
              rows := [(⟨some (6/5), none, []⟩, 1/5)] } := by
  constructor
  · intro df config hd
    simp only [flag_shifts]
    rw [if_neg (by simp [hd]), shiftFlagsAux_eq_zip]
  · simp only [flag_shifts]
    rw [if_neg (by simp)]
    simp only [shiftFlagsAux]
    rw [show |(1:ℚ) - 1| = 0 from by norm_num,
      show |(6:ℚ)/5 - 1| = 1/5 from by norm_num,
      show |(121:ℚ)/100 - 6/5| = 1/100 from by norm_num]
    norm_num

/-- Witness for C6 at a concrete table. -/
theorem flag_shifts_spec_witness :
    flag_shifts
        { hasDepth := true, hasTemp := false, rows := [⟨some 1, none, []⟩] }
        { shift_threshold := 3/20, temperature_threshold := none }
      = .ok { extraCol := true, rows := [] } := by
  have h := flag_shifts_spec.1
    { hasDepth := true, hasTemp := false, rows := [⟨some 1, none, []⟩] }
    { shift_threshold := 3/20, temperature_threshold := none } rfl
  simpa using h

/-- C8: flag_shifts fails with the missing-column error whenever the water
depth column is absent, whatever the rows and the config. -/
theorem flag_shifts_missing_column (df : QTable) (config : QAQCConfig)
    (h : df.hasDepth = false) :
    flag_shifts df config =
      .error (.missingColumn "water depth column missing from dataframe") := by
  simp only [flag_shifts]
  rw [if_pos h]

/-- Witness for C8 at a concrete table with rows and an enabled
temperature threshold. -/
theorem flag_shifts_missing_column_witness :
    flag_shifts
        { hasDepth := false, hasTemp := true,
          rows := [⟨some 1, some 2, [3]⟩] }
        { shift_threshold := 3/20, temperature_threshold := some 5 }
      = .error (.missingColumn "water depth column missing from dataframe") :=
  flag_shifts_missing_column
    { hasDepth := false, hasTemp := true, rows := [⟨some 1, some 2, [3]⟩] }
    { shift_threshold := 3/20, temperature_threshold := some 5 } rfl

/-- C10: every flagged row of flag_shifts and of flag_temperature_outliers
is an input row, carried unchanged, and its added column is strictly
positive evidence: depth_change strictly exceeds shift_threshold and
temperature_excess is strictly positive. -/
theorem qaqc_flagged_rows_provenance :
    (∀ (df : QTable) (config : QAQCConfig) (out : FlagResult),
        flag_shifts df config = .ok out →
        ∀ r c, (r, c) ∈ out.rows → r ∈ df.rows ∧ config.shift_threshold < c) ∧
    (∀ (df : QTable) (config : QAQCConfig) (r : QRow) (c : ℚ),
        (r, c) ∈ (flag_temperature_outliers df config).rows →
        r ∈ df.rows ∧ 0 < c) := by
  constructor
  · intro df config out hout r c hmem
    by_cases hd : df.hasDepth = false
    · simp only [flag_shifts] at hout
      rw [if_pos hd] at hout
      exact Except.noConfusion hout
    · simp only [flag_shifts] at hout
      rw [if_neg hd] at hout
      have hrows : out.rows =
          shiftFlagsAux config.shift_threshold none df.rows := by
        cases hout; rfl
      rw [hrows] at hmem
      exact shiftFlagsAux_mem config.shift_threshold none df.rows r c hmem
  · intro df config r c hmem
    rcases hthr : config.temperature_threshold with _ | thr
    · simp only [flag_temperature_outliers, hthr] at hmem
      simp at hmem
    · simp only [flag_temperature_outliers, hthr] at hmem
      by_cases hz : (thr == 0 || !df.hasTemp) = true
      · rw [if_pos (by simpa using hz)] at hmem
        simp at hmem
      · rw [if_neg (by simpa using hz)] at hmem
        simp only [List.mem_filterMap] at hmem
        rcases hmem with ⟨a, ha, hf⟩
        rcases hat : a.temp with _ | v
        · simp only [hat] at hf
          exact Option.noConfusion hf
        · simp only [hat] at hf
          by_cases hv : thr < v
          · rw [if_pos hv, Option.some.injEq, Prod.mk.injEq] at hf
            rcases hf with ⟨rfl, rfl⟩
            exact ⟨ha, by linarith⟩
          · rw [if_neg hv] at hf
            exact Option.noConfusion hf

/-- Witness for C10 at a concrete table for each of the two flaggers. -/
theorem qaqc_flagged_rows_provenance_witness :
    ((⟨some 1, some 9, [7]⟩ : QRow) ∈
        ([⟨some 0, some 9, [7]⟩, ⟨some 1, some 9, [7]⟩] : List QRow) ∧
      (3/20 : ℚ) < 1) ∧
    ((⟨some 1, some 9, [7]⟩ : QRow) ∈
        ([⟨some 0, some 9, [7]⟩, ⟨some 1, some 9, [7]⟩] : List QRow) ∧
      (0 : ℚ) < 4) := by
  constructor
  · refine qaqc_flagged_rows_provenance.1
      { hasDepth := true, hasTemp := true,
        rows := [⟨some 0, some 9, [7]⟩, ⟨some 1, some 9, [7]⟩] }
      { shift_threshold := 3/20, temperature_threshold := none }
      { extraCol := true, rows := [(⟨some 1, some 9, [7]⟩, 1)] }
      ?_ ⟨some 1, some 9, [7]⟩ 1 (by simp)
    simp only [flag_shifts]
    rw [if_neg (by simp)]
    simp only [shiftFlagsAux]
    rw [show |(1:ℚ) - 0| = 1 from by norm_num]
    norm_num
  · refine qaqc_flagged_rows_provenance.2
      { hasDepth := true, hasTemp := true,
        rows := [⟨some 0, some 9, [7]⟩, ⟨some 1, some 9, [7]⟩] }
      { shift_threshold := 3/20, temperature_threshold := some 5 }
      ⟨some 1, some 9, [7]⟩ 4 ?_
    simp only [flag_temperature_outliers]
    norm_num

/-- C7 (code level): with the temperature column present and a row at
5 degrees, a threshold of exactly zero makes flag_temperature_outliers
return the empty input-schema table (the Python falsiness test treats 0.0
like an unset threshold), while the same table with threshold 1 flags the
row; so a zero threshold does disable the check, contrary to the claim. -/
theorem flag_temperature_zero_threshold_disables :
    flag_temperature_outliers
        { hasDepth := true, hasTemp := true, rows := [⟨none, some 5, []⟩] }
        { shift_threshold := 3/20, temperature_threshold := some 0 }
      = { extraCol := false, rows := [] } ∧
    flag_temperature_outliers
        { hasDepth := true, hasTemp := true, rows := [⟨none, some 5, []⟩] }
        { shift_threshold := 3/20, temperature_threshold := some 1 }
      = { extraCol := true, rows := [(⟨none, some 5, []⟩, 4)] } := by
  constructor
  · simp only [flag_temperature_outliers]
    norm_num
  · simp only [flag_temperature_outliers]
    norm_num [List.filterMap_cons]

/-- C9: summarise_timeseries on the empty merged table returns two empty
aggregates and raises nothing (the model is a total function). -/
theorem summarise_timeseries_empty :
    summarise_timeseries [] = ([], []) := rfl

/-- C3 (code level): ProcessingConfig performs no validation, so a config
with zero fluid density is constructed without any error, and compute_wse
runs to a successful result on it; no InvalidConfigError exists anywhere
in the pipeline. -/
theorem config_density_not_validated :
    (mkProcessingConfig 100 0 "kPa" none 900).fluid_density = 0 ∧
    ∃ out, compute_wse [⟨some 0, some 5, none⟩] [⟨some 0, some 1, none⟩]
        (mkProcessingConfig 100 0 "kPa" none 900) = .ok out ∧
      out.length = 1 := by
  refine ⟨rfl, ⟨_, rfl, rfl⟩⟩

/-! Unit conversion and pipeline claims. -/

/-- The factor of a supported unit is strictly positive. -/
theorem unitFactor_pos {u : String} {f : ℚ} (h : unitFactor u = .ok f) :
    0 < f := by
  simp only [unitFactor] at h
  split_ifs at h with h1 h2
  · cases h; norm_num [KPA_TO_PASCAL]
  · cases h; norm_num [PSI_TO_PASCAL]

/-- C2: to_pascal multiplies by 1000 for kPa and by 6894.757293168 for
psi, matching the unit case-insensitively; dividing the result by the
unit's conversion factor returns the input; every other unit fails with
the unsupported-unit error. -/
theorem toPascal_unit_spec :
    (∀ (v : ℚ) (u : String), strLower u = "kpa" →
        toPascal v u = .ok (v * 1000)) ∧
    (∀ (v : ℚ) (u : String), strLower u = "psi" →
        toPascal v u = .ok (v * (6894757293168 / 1000000000))) ∧
    (∀ (v w f : ℚ) (u : String), unitFactor u = .ok f →
        toPascal v u = .ok w → w / f = v) ∧
    (∀ (v : ℚ) (u : String), strLower u ≠ "kpa" → strLower u ≠ "psi" →
        toPascal v u = .error (.unsupportedUnit (strLower u))) := by
  refine ⟨?_, ?_, ?_, ?_⟩
  · intro v u h
    simp [toPascal, h, KPA_TO_PASCAL]
  · intro v u h
    simp [toPascal, h, PSI_TO_PASCAL]
  · intro v w f u hf hw
    rw [toPascal_eq_factor, hf] at hw
    simp only [Except.map, Except.ok.injEq] at hw
    subst hw
    have hfpos : 0 < f := unitFactor_pos hf
    field_simp
  · intro v u h1 h2
    simp [toPascal, h1, h2]

/-- Witness for C2 on the values 2 kPa, 2 PsI (mixed case), 2 bar. -/
theorem toPascal_unit_spec_witness :
    toPascal 2 "kPa" = .ok (2 * 1000) ∧
    toPascal 2 "PsI" = .ok (2 * (6894757293168 / 1000000000)) ∧
    (2000 : ℚ) / 1000 = 2 ∧
    toPascal 2 "bar" = .error (.unsupportedUnit "bar") := by
  refine ⟨toPascal_unit_spec.1 2 "kPa" (by decide),
    toPascal_unit_spec.2.1 2 "PsI" (by decide),
    toPascal_unit_spec.2.2.1 2 2000 1000 "kPa" ?_ ?_, ?_⟩
  · norm_num +decide [unitFactor, KPA_TO_PASCAL]
  · norm_num +decide [toPascal, KPA_TO_PASCAL]
  · have h := toPascal_unit_spec.2.2.2 2 "bar" (by decide) (by decide)
    simpa [show strLower "bar" = "bar" from by decide] using h

/-- C5: for each water-series timestamp the aligner matches the
barometric-series candidate nearest by absolute time difference; a
nearest candidate farther than the merge tolerance leaves the barometric
fields null for that row; candidates at exactly equal distance resolve to
the earlier timestamp. -/
theorem aligner_nearest_spec (t tol : ℤ) (baro : List BaroRow)
    (w : WaterRow) (hw : w.ts = some t) :
    (∀ p, asofPick t tol (withKeys (sortBaro baro)) = some p →
        p ∈ withKeys (sortBaro baro) ∧ |t - p.1| ≤ tol ∧
        (∀ q ∈ withKeys (sortBaro baro), |t - p.1| ≤ |t - q.1|) ∧
        (∀ q ∈ withKeys (sortBaro baro),
          |t - q.1| = |t - p.1| → p.1 ≤ q.1)) ∧
    ((∀ q ∈ withKeys (sortBaro baro), tol < |t - q.1|) →
        (alignRow tol (withKeys (sortBaro baro)) w).bp = none ∧
        (alignRow tol (withKeys (sortBaro baro)) w).bt = none) := by
  refine ⟨(asofPick_spec t tol _ (withKeys_sorted baro)).1, ?_⟩
  intro hfar
  have hnone := asofPick_none_of_far hfar
  constructor <;> simp [alignRow, hw, hnone]

/-- Witness for C5: barometric rows at 0 s and 10 s, water timestamp 5 s,
tolerance 900 s; the pick is the earlier row, at distance five on both
sides. -/
theorem aligner_nearest_spec_witness :
    ((0 : ℤ), (⟨some 0, some 1, none⟩ : BaroRow)) ∈
        withKeys (sortBaro [⟨some 0, some 1, none⟩, ⟨some 10, some 2, none⟩]) ∧
      |(5 : ℤ) - 0| ≤ 900 ∧
      |(5 : ℤ) - 0| ≤ |5 - (10, (⟨some 10, some 2, none⟩ : BaroRow)).1| ∧
      (0 : ℤ) ≤ (10, (⟨some 10, some 2, none⟩ : BaroRow)).1 := by
  have h := (aligner_nearest_spec 5 900
    [⟨some 0, some 1, none⟩, ⟨some 10, some 2, none⟩]
    ⟨some 5, some 3, none⟩ rfl).1 (0, ⟨some 0, some 1, none⟩) (by decide)
  exact ⟨h.1, h.2.1,
    h.2.2.1 (10, ⟨some 10, some 2, none⟩) (by decide),
    h.2.2.2 (10, ⟨some 10, some 2, none⟩) (by decide) (by decide)⟩

/-- C4 counterexample: with the water-temperature column selected and a
row whose temperature cell is missing, compute_wse still retains the row
and reports a WSE value (the dropna subset of line 97 of calculations.py
does not include the temperature columns), contradicting the claim that a
WSE value is only reported when a temperature is present. -/
theorem compute_wse_null_temperature_retained :
    compute_wse [⟨some 0, some 5, none⟩] [⟨some 0, some 1, none⟩]
        { reference_datum := 100, fluid_density := 1000,
          pressure_units := "kPa", timezone := none, merge_tolerance := 900 }
      = .ok [{ ts := some 0, wp := some 5, bp := some 1, wt := none,
               bt := none, gauge := some (5 - 1),
               depth := some ((5 - 1) * 1000 / (1000 * GRAVITY)),
               wse := some (100 + (5 - 1) * 1000 / (1000 * GRAVITY)) }] := rfl

/-- C4 (amended): after alignment every row whose timestamp, water
pressure or barometric pressure is null is dropped; every retained row's
barometric pressure comes from a barometric row within the merge
tolerance of its timestamp (never a null carried forward); and a water
timestamp with no barometric sample within tolerance produces no output
row.  A missing temperature cell does not drop a row. -/
theorem compute_wse_dropna_spec :
    ∀ (water : List WaterRow) (baro : List BaroRow)
      (config : ProcessingConfig) (out : List MergedRow),
      compute_wse water baro config = .ok out →
      (∀ r ∈ out, r.ts.isSome = true ∧ r.wp.isSome = true ∧
        r.bp.isSome = true) ∧
      (∀ r ∈ out, ∀ t, r.ts = some t →
        ∃ b ∈ baro, ∃ k, b.ts = some k ∧
          |t - k| ≤ config.merge_tolerance ∧ r.bp = b.bp) ∧
      (∀ t : ℤ, (∀ b ∈ baro, ∀ k, b.ts = some k →
          config.merge_tolerance < |t - k|) →
        ∀ r ∈ out, r.ts ≠ some t) := by
  intro water baro config out hout
  rcases except_map_eq_ok hout with ⟨f, hf, hout2⟩
  subst hout2
  have hsplit : ∀ r ∈ (dropnaRows
      (alignTables config.merge_tolerance water baro)).map
        (addComputedColumns config f),
      ∃ w0, w0 ∈ sortWater water ∧
        (alignRow config.merge_tolerance (withKeys (sortBaro baro)) w0).ts.isSome
          = true ∧
        (alignRow config.merge_tolerance (withKeys (sortBaro baro)) w0).wp.isSome
          = true ∧
        (alignRow config.merge_tolerance (withKeys (sortBaro baro)) w0).bp.isSome
          = true ∧
        r = addComputedColumns config f
          (alignRow config.merge_tolerance (withKeys (sortBaro baro)) w0) := by
    intro r hr
    rcases List.mem_map.mp hr with ⟨a, ha, hra⟩
    simp only [dropnaRows, List.mem_filter] at ha
    rcases ha with ⟨ha1, ha2⟩
    simp only [alignTables, List.mem_map] at ha1
    rcases ha1 with ⟨w0, hw0, haw⟩
    subst haw
    simp only [Bool.and_eq_true] at ha2
    exact ⟨w0, hw0, ha2.1.1, ha2.1.2, ha2.2, hra.symm⟩
  refine ⟨?_, ?_, ?_⟩
  · intro r hr
    rcases hsplit r hr with ⟨w0, _, hts, hwp, hbp, hr2⟩
    subst hr2
    exact ⟨by simpa [addComputedColumns] using hts,
      by simpa [addComputedColumns] using hwp,
      by simpa [addComputedColumns] using hbp⟩
  · intro r hr t hts
    rcases hsplit r hr with ⟨w0, _, _, _, hbp, hr2⟩
    subst hr2
    simp only [addComputedColumns] at hts hbp ⊢
    have hw0ts : w0.ts = some t := by simpa [alignRow] using hts
    rcases hpick : asofPick t config.merge_tolerance
        (withKeys (sortBaro baro)) with _ | p
    · exfalso
      simp [alignRow, hw0ts, hpick] at hbp
    · rcases asofPick_mem_tol hpick with ⟨hpmem, hptol⟩
      rcases mem_withKeys hpmem with ⟨hpbaro, hpts⟩
      refine ⟨p.2, ?_, p.1, hpts, hptol, ?_⟩
      · exact (mem_sortByLe _ _ baro).mp (by simpa [sortBaro] using hpbaro)
      · simp [alignRow, hw0ts, hpick]
  · intro t hfar r hr hts
    rcases hsplit r hr with ⟨w0, _, _, _, hbp, hr2⟩
    subst hr2
    simp only [addComputedColumns] at hts hbp
    have hw0ts : w0.ts = some t := by simpa [alignRow] using hts
    have hks : ∀ q ∈ withKeys (sortBaro baro),
        config.merge_tolerance < |t - q.1| := by
      intro q hq
      rcases mem_withKeys hq with ⟨hqbaro, hqts⟩
      exact hfar q.2 ((mem_sortByLe _ _ baro).mp
        (by simpa [sortBaro] using hqbaro)) q.1 hqts
    have hnone := asofPick_none_of_far hks
    simp [alignRow, hw0ts, hnone] at hbp

/-- Witness for C4 at a one-row dataset: the retained row has all three
required cells present. -/
theorem compute_wse_dropna_spec_witness :
    ({ ts := some 0, wp := some 5, bp := some 1, wt := none,
       bt := none, gauge := some (5 - 1),
       depth := some ((5 - 1) * 1000 / (1000 * GRAVITY)),
       wse := some (100 + (5 - 1) * 1000 / (1000 * GRAVITY)) } :
        MergedRow).ts.isSome = true ∧
    ({ ts := some 0, wp := some 5, bp := some 1, wt := none,
       bt := none, gauge := some (5 - 1),
       depth := some ((5 - 1) * 1000 / (1000 * GRAVITY)),
       wse := some (100 + (5 - 1) * 1000 / (1000 * GRAVITY)) } :
        MergedRow).wp.isSome = true ∧
    ({ ts := some 0, wp := some 5, bp := some 1, wt := none,
       bt := none, gauge := some (5 - 1),
       depth := some ((5 - 1) * 1000 / (1000 * GRAVITY)),
       wse := some (100 + (5 - 1) * 1000 / (1000 * GRAVITY)) } :
        MergedRow).bp.isSome = true := by
  exact (compute_wse_dropna_spec [⟨some 0, some 5, none⟩]
    [⟨some 0, some 1, none⟩]
    { reference_datum := 100, fluid_density := 1000,
      pressure_units := "kPa", timezone := none, merge_tolerance := 900 }
    _ rfl).1 _ (List.mem_singleton.mpr rfl)

/-- C1: every row retained by compute_wse satisfies the three formulas:
gauge pressure is the pressure difference taken in the input unit, depth
is the pascal value of the gauge pressure divided by density times
9.80665, and the water surface elevation is the reference datum plus the
depth; a negative gauge pressure gives a negative depth; and with a
supported unit the computation never fails, whatever the values. -/
theorem compute_wse_row_formulas :
    (∀ (water : List WaterRow) (baro : List BaroRow)
        (config : ProcessingConfig) (out : List MergedRow),
      compute_wse water baro config = .ok out →
      ∀ r ∈ out, ∃ p b pa,
        r.wp = some p ∧ r.bp = some b ∧
        r.gauge = some (p - b) ∧
        toPascal (p - b) config.pressure_units = .ok pa ∧
        r.depth = some (pa / (config.fluid_density * GRAVITY)) ∧
        r.wse = some (config.reference_datum +
          pa / (config.fluid_density * GRAVITY)) ∧
        (0 < config.fluid_density → p - b < 0 →
          pa / (config.fluid_density * GRAVITY) < 0)) ∧
    (∀ (water : List WaterRow) (baro : List BaroRow)
        (config : ProcessingConfig),
      strLower config.pressure_units = "kpa" ∨
        strLower config.pressure_units = "psi" →
      (compute_wse water baro config).isOk = true) := by
  constructor
  · intro water baro config out hout r hr
    rcases except_map_eq_ok hout with ⟨f, hf, hout2⟩
    subst hout2
    rcases List.mem_map.mp hr with ⟨a, ha, hra⟩
    simp only [dropnaRows, List.mem_filter] at ha
    rcases ha with ⟨_, ha2⟩
    simp only [Bool.and_eq_true, Option.isSome_iff_exists] at ha2
    rcases ha2 with ⟨⟨_, ⟨p, hp⟩⟩, ⟨b, hb⟩⟩
    subst hra
    refine ⟨p, b, (p - b) * f, ?_, ?_, ?_, ?_, ?_, ?_, ?_⟩
    · simpa [addComputedColumns] using hp
    · simpa [addComputedColumns] using hb
    · simp [addComputedColumns, omap2, hp, hb]
    · rw [toPascal_eq_factor, hf]
      rfl
    · simp [addComputedColumns, omap2, hp, hb]
    · simp [addComputedColumns, omap2, hp, hb]
    · intro hden hneg
      have hfpos : 0 < f := unitFactor_pos hf
      have hG : (0 : ℚ) < GRAVITY := by norm_num [GRAVITY]
      exact div_neg_of_neg_of_pos (mul_neg_of_neg_of_pos hneg hfpos)
        (mul_pos hden hG)
  · intro water baro config hu
    simp only [compute_wse]
    rcases hu with h | h <;>
      simp [unitFactor, h, Except.map, Except.isOk, Except.toBool]

/-- Witness for C1: a supported unit makes compute_wse succeed on a
concrete dataset. -/
theorem compute_wse_row_formulas_witness :
    (compute_wse [⟨some 0, some 5, some 20⟩] [⟨some 0, some 1, none⟩]
      { reference_datum := 100, fluid_density := 1000,
        pressure_units := "kPa", timezone := none,
        merge_tolerance := 900 }).isOk = true := by
  exact compute_wse_row_formulas.2 [⟨some 0, some 5, some 20⟩]
    [⟨some 0, some 1, none⟩]
    { reference_datum := 100, fluid_density := 1000,
      pressure_units := "kPa", timezone := none, merge_tolerance := 900 }
    (Or.inl (by decide))

end WSE
